import Mathlib

/-!
Verification of the journal-analyzer plugin core pipeline (src/main.ts).

Strings are modelled as lists of characters (type Str below).  JavaScript
string primitives used by the source are embedded as follows:

* String.prototype.startsWith  -> List.isPrefixOf
* code-unit comparison (s1 <= s2, used for the ISO date strings) and
  localeCompare-based ascending sort -> lexLe, the lexicographic order on
  character lists (for the ASCII basenames involved, localeCompare agrees
  with code-unit order).
* the regex (\d1234-\d12-\d12) first match -> extractDate: the least
  index at which a ten-character date-shaped window starts.
* Array.prototype.sort (stable since ES2019) -> List.mergeSort.
-/

abbrev Str := List Char

/-- Lexicographic order (as a Boolean) on character lists; the model of
JavaScript code-unit string comparison. -/
def lexLe : Str → Str → Bool
  | [], _ => true
  | _ :: _, [] => false
  | a :: as, b :: bs => decide (a < b) || (decide (a = b) && lexLe as bs)

/-- ASCII digit test, the model of the regex class backslash-d (no
Unicode flag, so exactly the characters 0 through 9). -/
def isAsciiDigit (c : Char) : Bool := decide ('0' ≤ c) && decide (c ≤ '9')

/-- Does a ten-character window have the shape YYYY-MM-DD? -/
def dateShape : Str → Bool
  | [y1, y2, y3, y4, h1, m1, m2, h2, d1, d2] =>
    isAsciiDigit y1 && isAsciiDigit y2 && isAsciiDigit y3 && isAsciiDigit y4 &&
      decide (h1 = '-') && isAsciiDigit m1 && isAsciiDigit m2 &&
      decide (h2 = '-') && isAsciiDigit d1 && isAsciiDigit d2
  | _ => false

def dateShapeAt (s : Str) (i : Nat) : Bool := dateShape ((s.drop i).take 10)

/-- First match of the date regex in a basename (src/main.ts line 149):
the window starting at the least index whose next ten characters are
date-shaped, if any. -/
def extractDate (s : Str) : Option Str :=
  ((List.range s.length).find? (dateShapeAt s)).map (fun i => (s.drop i).take 10)

/-- A markdown file of the vault: identified by its path, carrying the
basename (filename without folders and extension) and its text body. -/
structure JFile where
  path : Str
  basename : Str
  body : Str
deriving DecidableEq

/-- The filter of src/main.ts lines 143-156: keep a markdown file when its
path starts with the journal folder and its extracted date lies between
startDate and endDate under lexicographic string comparison. -/
def keepFile (folder startDate endDate : Str) (f : JFile) : Bool :=
  folder.isPrefixOf f.path &&
    match extractDate f.basename with
    | none => false
    | some d => lexLe startDate d && lexLe d endDate

/-- Comparator of the sort at src/main.ts line 158 (localeCompare on
basenames, modelled as lexicographic order). -/
def basenameLe (a b : JFile) : Bool := lexLe a.basename b.basename

/-- The pure filter-and-sort part of getJournalFilesInRange
(src/main.ts lines 142-158). -/
def selectJournalFiles (folder startDate endDate : Str) (files : List JFile) : List JFile :=
  (files.filter (keepFile folder startDate endDate)).mergeSort basenameLe

/-- The note store: the vault's markdown files plus its folder paths. -/
structure Vault where
  files : List JFile
  folders : List Str
deriving DecidableEq

/-- vault.getAbstractFileByPath resolves a path to a file or a folder;
its truthiness is what src/main.ts lines 137-140 and 228 and 249 test. -/
def abstractExists (v : Vault) (p : Str) : Bool :=
  v.files.any (fun f => f.path == p) || v.folders.any (fun q => q == p)

/-- getJournalFilesInRange (src/main.ts lines 136-159): throws when the
configured journal folder does not resolve in the store, otherwise
filters and sorts the markdown files. -/
def getJournalFilesInRange (journalFolder startDate endDate : Str) (v : Vault) :
    Except Str (List JFile) :=
  if abstractExists v journalFolder then
    .ok (selectJournalFiles journalFolder startDate endDate v.files)
  else
    .error ("Journal folder not found: ".data ++ journalFolder)

/-! ## Content aggregation (readJournalFiles, src/main.ts lines 161-170) -/

/-- The per-file section appended by readJournalFiles: a header line with
the basename, a blank line, the full body, a trailing newline. -/
def entrySection (f : JFile) : Str :=
  "\n\n## Entry: ".data ++ f.basename ++ "\n\n".data ++ f.body ++ "\n".data

/-- readJournalFiles: concatenation of the per-file sections in input
order (the accumulating loop of src/main.ts lines 164-167). -/
def readJournalFiles (files : List JFile) : Str :=
  (files.map entrySection).flatten

/-- The literal the footer count splits on (src/main.ts line 211). -/
def entryMarker : Str := "## Entry:".data

/-- Occurrence test: does pat occur in s starting at index i? -/
def occB (pat s : Str) (i : Nat) : Bool := pat.isPrefixOf (s.drop i)

/-- Number of positions of s at which pat occurs. -/
def countPos (pat s : Str) : Nat := (List.range s.length).countP (occB pat s)

/-- Does pat occur anywhere in s? -/
def hasSubstr (pat s : Str) : Bool := (List.range s.length).any (occB pat s)

/-- The count computed at src/main.ts line 211 as
content.split(marker).length - 1: the number of greedy left-to-right
matches of the marker. -/
def entryCount : Str → Nat
  | [] => 0
  | c :: rest =>
    if entryMarker.isPrefixOf (c :: rest) then
      1 + entryCount (rest.drop 8)
    else
      entryCount rest
  termination_by s => s.length
  decreasing_by
  · simp only [List.length_drop, List.length_cons]
    omega
  · simp only [List.length_cons]
    omega

/-- The Entries-analyzed number the invoker embeds in its footer. -/
def entriesAnalyzedCount (content : Str) : Nat := entryCount content

/-! ## External-tool invocation (analyzeWithClaudeCode, src/main.ts 172-223) -/

/-- JavaScript String.prototype.trim whitespace (the characters relevant
to tool output). -/
def isWsChar (c : Char) : Bool :=
  c == ' ' || c == '\t' || c == '\n' || c == '\r'

def trimStr (s : Str) : Str :=
  ((s.dropWhile isWsChar).reverse.dropWhile isWsChar).reverse

/-- The fixed theme-analysis prompt template (src/main.ts lines 173-186);
this text is what gets written to the temporary artifact. -/
def promptFor (content startDate endDate : Str) : Str :=
  "Analyze the following journal entries from ".data ++ startDate ++ " to ".data ++
    endDate ++
    ".\n\nPlease provide:\n\n1. **Recurring Themes** - Identify major themes that appear multiple times\n2. **Pattern Recognition** - Note behavioral patterns, decision-making patterns, emotional patterns\n3. **Key Insights** - What stands out as significant across entries\n4. **Suggested Connections** - Identify entries or concepts that should be linked together\n5. **Questions to Consider** - Based on the patterns, what questions might be worth exploring\n\nJournal Entries:\n".data ++
    content ++
    "\n\nPlease format your response in markdown with clear sections.".data

/-- Outcome of the execAsync call piping the temp artifact to the
configured command: either resolved with captured stdout/stderr, or
rejected (spawn failure or abnormal exit). -/
inductive ExecResult where
  | ok (stdout stderr : Str)
  | fail (msg : Str)
deriving DecidableEq

/-- What one invocation leaves behind: the result propagated to the
caller, and whether the temporary prompt artifact was unlinked. -/
structure InvokeResult where
  result : Except Str Str
  tempRemoved : Bool

/-- The metadata footer appended at src/main.ts lines 210-217. -/
def footerText (entriesCount : Nat) (now : Str) : Str :=
  "\n\n---\n*Generated by Journal Analyzer Plugin*\n*Entries analyzed: ".data ++
    Nat.toDigits 10 entriesCount ++ "*\n*Generated: ".data ++ now ++ "*".data

/-- analyzeWithClaudeCode (src/main.ts lines 188-222), traced over the
exec outcome.  The unlink at line 200 runs only after execAsync resolves;
a rejected execAsync jumps straight to the catch block, so the artifact
stays behind on that path.  The empty-stdout throw happens after the
unlink and is rethrown by the catch with the wrapping message. -/
def analyzeWithClaudeCode (content startDate endDate : Str) (now : Str)
    (exec : ExecResult) : InvokeResult :=
  match exec with
  | .fail msg =>
    { result := .error ("Failed to analyze with Claude Code: ".data ++ msg),
      tempRemoved := false }
  | .ok stdout _stderr =>
    if trimStr stdout = [] then
      { result := .error
          "Failed to analyze with Claude Code: Claude Code returned empty response".data,
        tempRemoved := true }
    else
      { result := .ok (trimStr stdout ++
          footerText (entriesAnalyzedCount content) now),
        tempRemoved := true }

/-! ## Meta-note creation (createMetaNote, src/main.ts lines 225-261) -/

/-- JS targetPath.replace of a trailing .md (also used by the wiki-link
builder at line 414). -/
def stripMdExt (p : Str) : Str :=
  if ".md".data.isSuffixOf p then p.take (p.length - 3) else p

/-- Basename of a path: the final path segment without its extension. -/
def basenameOf (p : Str) : Str :=
  stripMdExt ((p.reverse.takeWhile (fun c => !(c == '/'))).reverse)

/-- The deterministic target path of src/main.ts line 233. -/
def notePath (metaFolder startDate endDate : Str) : Str :=
  metaFolder ++ "/analysis-".data ++ startDate ++ "-to-".data ++ endDate ++ ".md".data

/-- The frontmatter block of src/main.ts lines 236-244. -/
def frontmatterFor (today startDate endDate : Str) : Str :=
  "---\ndate: ".data ++ today ++
    "\ntype: journal-analysis\ntags: [meta, analysis, journal]\nstart_date: ".data ++
    startDate ++ "\nend_date: ".data ++ endDate ++ "\n---\n\n".data

def noteContentFor (today startDate endDate analysis : Str) : Str :=
  frontmatterFor today startDate endDate ++ analysis

/-- createMetaNote: ensure the meta folder resolves (creating it when
absent; this only touches the folder set, never the file list), then
modify the note at the derived path if a file already exists there,
otherwise create it. -/
def createMetaNote (metaFolder : Str) (today analysis startDate endDate : Str)
    (v : Vault) : Vault :=
  if v.files.any (fun f => f.path == notePath metaFolder startDate endDate) then
    { files := v.files.map (fun f =>
        if f.path == notePath metaFolder startDate endDate then
          { f with body := noteContentFor today startDate endDate analysis }
        else f),
      folders := if abstractExists v metaFolder then v.folders
                 else v.folders ++ [metaFolder] }
  else
    { files := v.files ++ [⟨notePath metaFolder startDate endDate,
        basenameOf (notePath metaFolder startDate endDate),
        noteContentFor today startDate endDate analysis⟩],
      folders := if abstractExists v metaFolder then v.folders
                 else v.folders ++ [metaFolder] }

/-! ## The theme-analysis pipeline (analyzeJournalRange, src/main.ts 95-134) -/

/-- Plugin settings (the fields the pipeline reads). -/
structure Settings where
  journalFolder : Str
  metaFolder : Str
  claudeCodePath : Str
  daysToAnalyze : Int
  connectionMinConfidence : Int
  connectionTypes : List Str
deriving DecidableEq

/-- What a pipeline run surfaces to the user: success, the
no-entries-found notice, or the caught error's message. -/
inductive RunOutcome where
  | success
  | emptyNotice
  | errorNotice (msg : Str)
deriving DecidableEq

/-- analyzeJournalRange: select files, bail out with a notice when none
match, aggregate, invoke the external tool, and only on success write
the meta note.  Any thrown error is caught at the boundary (lines
129-133) and surfaced as a notice, leaving the store untouched. -/
def analyzeJournalRange (cfg : Settings) (today now : Str) (exec : ExecResult)
    (startDate endDate : Str) (v : Vault) : Vault × RunOutcome :=
  match getJournalFilesInRange cfg.journalFolder startDate endDate v with
  | .error msg => (v, .errorNotice msg)
  | .ok files =>
    if files = [] then (v, .emptyNotice)
    else
      match (analyzeWithClaudeCode (readJournalFiles files) startDate endDate now
          exec).result with
      | .error msg => (v, .errorNotice msg)
      | .ok analysis =>
        (createMetaNote cfg.metaFolder today analysis startDate endDate v, .success)

/-! ## Connection extraction and parsing (analyzeConnections, src/main.ts 373-407)

The runtime JSON.parse behind line 399 is embedded as a recursive-descent
parser over character lists.  One simplification: JSON numbers are read
as integers (fraction/exponent syntax is rejected), matching the
Connection contract's integer confidence field. -/

def isJsonWs (c : Char) : Bool := c == ' ' || c == '\t' || c == '\n' || c == '\r'

def skipWs (s : Str) : Str := s.dropWhile isJsonWs

/-- A JSON value. -/
inductive Json where
  | null
  | bool (b : Bool)
  | num (n : Int)
  | str (s : Str)
  | arr (elems : List Json)
  | obj (fields : List (Str × Json))

def lbrace : Char := Char.ofNat 123

def rbrace : Char := Char.ofNat 125

def unescapeChar : Char → Option Char
  | '"' => some '"'
  | '\\' => some '\\'
  | '/' => some '/'
  | 'b' => some (Char.ofNat 8)
  | 'f' => some (Char.ofNat 12)
  | 'n' => some '\n'
  | 'r' => some '\r'
  | 't' => some '\t'
  | _ => none

def hexVal (c : Char) : Option Nat :=
  if isAsciiDigit c then some (c.toNat - 48)
  else if decide ('a' ≤ c) && decide (c ≤ 'f') then some (c.toNat - 87)
  else if decide ('A' ≤ c) && decide (c ≤ 'F') then some (c.toNat - 55)
  else none

def parseStringBody : Nat → Str → Option (Str × Str)
  | 0, _ => none
  | _ + 1, [] => none
  | _ + 1, '"' :: rest => some ([], rest)
  | fuel + 1, '\\' :: rest =>
    match rest with
    | 'u' :: h1 :: h2 :: h3 :: h4 :: rest2 =>
      match hexVal h1, hexVal h2, hexVal h3, hexVal h4 with
      | some a, some b, some c, some d =>
        (parseStringBody fuel rest2).map
          (fun r => (Char.ofNat (((a * 16 + b) * 16 + c) * 16 + d) :: r.1, r.2))
      | _, _, _, _ => none
    | e :: rest2 =>
      match unescapeChar e with
      | some c => (parseStringBody fuel rest2).map (fun r => (c :: r.1, r.2))
      | none => none
    | [] => none
  | fuel + 1, c :: rest =>
    if c.toNat < 32 then none
    else (parseStringBody fuel rest).map (fun r => (c :: r.1, r.2))

def parseNatDigits (digits : Str) : Nat :=
  digits.foldl (fun n c => n * 10 + (c.toNat - 48)) 0

def parseNumber (s : Str) : Option (Json × Str) :=
  let neg := s.head? == some '-'
  let s1 := if neg then s.drop 1 else s
  let digits := s1.takeWhile isAsciiDigit
  let rest := s1.drop digits.length
  if digits = [] then none
  else if digits.length > 1 && (digits.head? == some '0') then none
  else
    match rest with
    | '.' :: _ => none
    | 'e' :: _ => none
    | 'E' :: _ => none
    | _ =>
      let n : Int := Int.ofNat (parseNatDigits digits)
      some (.num (if neg then -n else n), rest)

def parseLit (lit : Str) (v : Json) (s : Str) : Option (Json × Str) :=
  if lit.isPrefixOf s then some (v, s.drop lit.length) else none

mutual

def parseValue : Nat → Str → Option (Json × Str)
  | 0, _ => none
  | fuel + 1, s =>
    match skipWs s with
    | [] => none
    | c :: rest =>
      if c == '[' then
        match skipWs rest with
        | ']' :: rest2 => some (.arr [], rest2)
        | _ => parseElems fuel rest []
      else if c == lbrace then
        match skipWs rest with
        | c2 :: rest2 =>
          if c2 == rbrace then some (.obj [], rest2)
          else parseFields fuel rest []
        | [] => none
      else if c == '"' then
        (parseStringBody (rest.length + 1) rest).map (fun r => (.str r.1, r.2))
      else if c == 't' then parseLit "true".data (.bool true) (c :: rest)
      else if c == 'f' then parseLit "false".data (.bool false) (c :: rest)
      else if c == 'n' then parseLit "null".data .null (c :: rest)
      else parseNumber (c :: rest)

def parseElems : Nat → Str → List Json → Option (Json × Str)
  | 0, _, _ => none
  | fuel + 1, s, acc =>
    match parseValue fuel s with
    | none => none
    | some (v, rest) =>
      match skipWs rest with
      | ',' :: rest2 => parseElems fuel rest2 (acc ++ [v])
      | ']' :: rest2 => some (.arr (acc ++ [v]), rest2)
      | _ => none

def parseFields : Nat → Str → List (Str × Json) → Option (Json × Str)
  | 0, _, _ => none
  | fuel + 1, s, acc =>
    match skipWs s with
    | '"' :: rest =>
      match parseStringBody (rest.length + 1) rest with
      | none => none
      | some (key, rest2) =>
        match skipWs rest2 with
        | ':' :: rest3 =>
          match parseValue fuel rest3 with
          | none => none
          | some (v, rest4) =>
            match skipWs rest4 with
            | ',' :: rest5 => parseFields fuel rest5 (acc ++ [(key, v)])
            | c :: rest5 =>
              if c == rbrace then some (.obj (acc ++ [(key, v)]), rest5)
              else none
            | [] => none
        | _ => none
    | _ => none

end

/-- JSON.parse: the whole text must be one value with only trailing
whitespace. -/
def jsonDecode (s : Str) : Option Json :=
  match parseValue (2 * s.length + 2) s with
  | some (v, rest) => if skipWs rest = [] then some v else none
  | none => none

def firstIdxAux (c : Char) : Str → Nat → Option Nat
  | [], _ => none
  | x :: xs, i => if x == c then some i else firstIdxAux c xs (i + 1)

/-- The match of the regex at src/main.ts line 393: the region from the
first opening bracket to the last closing bracket, when the latter comes
after the former. -/
def extractRegion (s : Str) : Option Str :=
  match firstIdxAux '[' s 0,
      (firstIdxAux ']' s.reverse 0).map (fun j => s.length - 1 - j) with
  | some i, some j => if i < j then some ((s.drop i).take (j + 1 - i)) else none
  | _, _ => none

/-- Property access on a decoded record (later duplicate keys shadow
earlier ones, as in a JavaScript object literal). -/
def getField (fields : List (Str × Json)) (key : Str) : Option Json :=
  (fields.reverse.find? (fun kv => kv.1 == key)).map (fun kv => kv.2)

/-- c.confidence when it is a number; anything else (missing field,
non-record element, non-numeric field) makes the JS comparison at line
402 evaluate to false. -/
def connectionConfidence (c : Json) : Option Int :=
  match c with
  | .obj fields =>
    match getField fields "confidence".data with
    | some (.num n) => some n
    | _ => none
  | _ => none

def keepConnection (minConfidence : Int) (c : Json) : Bool :=
  match connectionConfidence c with
  | some n => decide (minConfidence ≤ n)
  | none => false

/-- The confidence filter of src/main.ts line 402. -/
def filterConnections (conns : List Json) (minConfidence : Int) : List Json :=
  conns.filter (keepConnection minConfidence)

/-- The response-parsing tail of analyzeConnections (src/main.ts
392-407): no bracketed region means an empty suggestion list; a region
that decodes as an array is filtered by confidence; a region that fails
to decode (or decodes to a non-array, on which .filter would throw) is
rethrown by the catch block as an error. -/
def parseConnections (stdout : Str) (minConfidence : Int) : Except Str (List Json) :=
  match extractRegion stdout with
  | none => .ok []
  | some region =>
    match jsonDecode region with
    | some (.arr elems) => .ok (filterConnections elems minConfidence)
    | some _ => .error "Failed to analyze connections: connections.filter is not a function".data
    | none => .error "Failed to analyze connections: Unexpected token in JSON".data

/-! ## Wiki-link insertion (insertWikiLink, src/main.ts 410-426, and the
Add-All loop of ConnectionSuggestionModal, src/main.ts 708-731) -/

/-- JS String.prototype.indexOf: the least index at which pat occurs. -/
def indexOfAux (pat : Str) : Str → Nat → Option Nat
  | [], i => if pat.isPrefixOf [] then some i else none
  | c :: rest, i =>
    if pat.isPrefixOf (c :: rest) then some i else indexOfAux pat rest (i + 1)

def strIndexOf (pat s : Str) : Option Nat := indexOfAux pat s 0

/-- JS String.prototype.replace with a plain-string pattern: splice the
replacement over the first occurrence, or return the receiver unchanged
when there is none. -/
def replaceFirst (s pat rep : Str) : Str :=
  match strIndexOf pat s with
  | none => s
  | some i => s.take i ++ rep ++ s.drop (i + pat.length)

/-- insertWikiLink: build the wiki link from the target path without its
extension, replace the first occurrence of the source text, and report
whether anything changed (the modify call happens exactly when it did). -/
def insertWikiLink (content sourceText targetPath : Str) : Str × Bool :=
  let updated := replaceFirst content sourceText
    ("[[".data ++ stripMdExt targetPath ++ "]]".data)
  if updated = content then (content, false) else (updated, true)

/-- The Connection record (src/main.ts lines 7-15). -/
structure Connection where
  sourceFile : Str
  targetFile : Str
  sourceText : Str
  targetText : Str
  reason : Str
  confidence : Int
  connectionType : Str
deriving DecidableEq

/-- One iteration of the Add-All-Links loop: apply the link insertion and
bump the applied or the failed counter. -/
def addLinkStep (acc : Str × Nat × Nat) (c : Connection) : Str × Nat × Nat :=
  let r := insertWikiLink acc.1 c.sourceText c.targetFile
  if r.2 then (r.1, acc.2.1 + 1, acc.2.2) else (r.1, acc.2.1, acc.2.2 + 1)

/-- The Add-All-Links loop (src/main.ts 712-727): every connection is
attempted in order against the evolving content; failures only increment
the failed counter. -/
def addAllLinks (content : Str) (conns : List Connection) : Str × Nat × Nat :=
  conns.foldl addLinkStep (content, 0, 0)

/-! ## Theorems -/

theorem lexLe_refl (s : Str) : lexLe s s = true := by
  induction s with
  | nil => rfl
  | cons a as ih => simp [lexLe, ih]

theorem lexLe_total (a b : Str) : lexLe a b || lexLe b a := by
  induction a generalizing b with
  | nil => simp [lexLe]
  | cons x xs ih =>
    cases b with
    | nil => simp [lexLe]
    | cons y ys =>
      rcases lt_trichotomy x y with h | h | h
      · simp [lexLe, h]
      · subst h
        simpa [lexLe] using ih ys
      · simp [lexLe, h]

theorem lexLe_trans (a b c : Str) (hab : lexLe a b = true) (hbc : lexLe b c = true) :
    lexLe a c = true := by
  induction a generalizing b c with
  | nil => simp [lexLe]
  | cons x xs ih =>
    cases b with
    | nil => simp [lexLe] at hab
    | cons y ys =>
      cases c with
      | nil => simp [lexLe] at hbc
      | cons z zs =>
        simp only [lexLe, Bool.or_eq_true, Bool.and_eq_true, decide_eq_true_eq] at hab hbc ⊢
        rcases hab with h1 | ⟨h1, h1'⟩
        · rcases hbc with h2 | ⟨h2, _⟩
          · exact Or.inl (lt_trans h1 h2)
          · exact Or.inl (h2 ▸ h1)
        · subst h1
          rcases hbc with h2 | ⟨h2, h2'⟩
          · exact Or.inl h2
          · exact Or.inr ⟨h2, ih ys zs h1' h2'⟩

theorem basenameLe_trans (a b c : JFile) (h1 : basenameLe a b = true)
    (h2 : basenameLe b c = true) : basenameLe a c = true :=
  lexLe_trans a.basename b.basename c.basename h1 h2

theorem basenameLe_total (a b : JFile) : basenameLe a b || basenameLe b a :=
  lexLe_total a.basename b.basename

/-- C1: for every file collection and start/end pair, range selection
returns exactly (as a permutation, hence with multiplicity) the files
whose path starts with the journal folder and whose basename has a first
YYYY-MM-DD-shaped match lying between start and end lexicographically,
and the result is sorted ascending by basename. -/
theorem selectJournalFiles_spec (folder startDate endDate : Str) (files : List JFile) :
    (selectJournalFiles folder startDate endDate files).Perm
        (files.filter (keepFile folder startDate endDate)) ∧
    List.Pairwise (fun a b => lexLe a.basename b.basename = true)
        (selectJournalFiles folder startDate endDate files) ∧
    ∀ f, f ∈ selectJournalFiles folder startDate endDate files ↔
      f ∈ files ∧ folder.isPrefixOf f.path = true ∧
        ∃ d, extractDate f.basename = some d ∧
          lexLe startDate d = true ∧ lexLe d endDate = true := by
  refine ⟨List.mergeSort_perm _ _, ?_, ?_⟩
  · exact List.sorted_mergeSort basenameLe_trans basenameLe_total _
  · intro f
    have hperm := List.mergeSort_perm
      (files.filter (keepFile folder startDate endDate)) basenameLe
    rw [selectJournalFiles, hperm.mem_iff, List.mem_filter]
    constructor
    · rintro ⟨hmem, hkeep⟩
      refine ⟨hmem, ?_⟩
      simp only [keepFile, Bool.and_eq_true] at hkeep
      obtain ⟨hpath, hdate⟩ := hkeep
      refine ⟨hpath, ?_⟩
      cases hd : extractDate f.basename with
      | none => rw [hd] at hdate; simp at hdate
      | some d =>
        rw [hd] at hdate
        simp only [Bool.and_eq_true] at hdate
        exact ⟨d, rfl, hdate.1, hdate.2⟩
    · rintro ⟨hmem, hpath, d, hd, h1, h2⟩
      refine ⟨hmem, ?_⟩
      simp only [keepFile, Bool.and_eq_true]
      exact ⟨hpath, by rw [hd]; simp [h1, h2]⟩

/-- C7: given that the journal folder resolves in the store, selection
never throws, and returns the empty sequence when nothing matches; it
throws the not-found error exactly when the path does not resolve. -/
theorem getJournalFilesInRange_folder_spec (journalFolder startDate endDate : Str)
    (v : Vault) :
    (abstractExists v journalFolder = true →
      getJournalFilesInRange journalFolder startDate endDate v =
        .ok (selectJournalFiles journalFolder startDate endDate v.files) ∧
      ((∀ f ∈ v.files, keepFile journalFolder startDate endDate f = false) →
        getJournalFilesInRange journalFolder startDate endDate v = .ok [])) ∧
    ((∃ msg, getJournalFilesInRange journalFolder startDate endDate v = .error msg) ↔
      abstractExists v journalFolder = false) := by
  constructor
  · intro hex
    constructor
    · simp [getJournalFilesInRange, hex]
    · intro hnone
      have hfilter : v.files.filter (keepFile journalFolder startDate endDate) = [] := by
        rw [List.filter_eq_nil_iff]
        intro f hf
        simp [hnone f hf]
      simp [getJournalFilesInRange, hex, selectJournalFiles, hfilter]
  · constructor
    · rintro ⟨msg, hmsg⟩
      by_contra hne
      rw [Bool.not_eq_false] at hne
      simp [getJournalFilesInRange, hne] at hmsg
    · intro hex
      exact ⟨"Journal folder not found: ".data ++ journalFolder,
        by simp [getJournalFilesInRange, hex]⟩

/-- Witness for the folder-existence theorem at a concrete store: the
folder exists, the single file does not match, selection returns the
empty list; and on a store without the folder, the error case. -/
theorem getJournalFilesInRange_folder_witness :
    (getJournalFilesInRange "journal".data "2025-01-01".data "2025-01-31".data
      { files := [{ path := "notes/todo.md".data, basename := "todo".data,
                    body := "x".data }],
        folders := ["journal".data] } = .ok []) ∧
    (∃ msg, getJournalFilesInRange "journal".data "2025-01-01".data "2025-01-31".data
      { files := [], folders := [] } = .error msg) := by
  constructor
  · exact ((getJournalFilesInRange_folder_spec "journal".data "2025-01-01".data
      "2025-01-31".data _).1 (by decide)).2 (by decide)
  · exact ((getJournalFilesInRange_folder_spec "journal".data "2025-01-01".data
      "2025-01-31".data _).2).2 (by decide)

/-! ## Marker-occurrence counting lemmas -/

theorem countPos_cons (pat : Str) (c : Char) (s : Str) :
    countPos pat (c :: s) = (if pat.isPrefixOf (c :: s) then 1 else 0) + countPos pat s := by
  unfold countPos
  rw [List.length_cons, List.range_succ_eq_map, List.countP_cons, List.countP_map]
  have h1 : List.countP (occB pat (c :: s) ∘ Nat.succ) (List.range s.length) =
      List.countP (occB pat s) (List.range s.length) := by
    apply List.countP_congr
    intro i _
    simp [occB, Function.comp, List.drop_succ_cons]
  have h2 : occB pat (c :: s) 0 = pat.isPrefixOf (c :: s) := rfl
  rw [h1, h2, Nat.add_comm]

theorem countPos_append (pat u v : Str) :
    countPos pat (u ++ v) =
      (List.range u.length).countP (occB pat (u ++ v)) + countPos pat v := by
  unfold countPos
  rw [List.length_append, List.range_add, List.countP_append, List.countP_map]
  congr 1
  apply List.countP_congr
  intro j _
  simp [occB, Function.comp, List.drop_append]

theorem isPrefixOf_append_of_isPrefixOf {pat a : Str} (b : Str)
    (h : pat.isPrefixOf a = true) : pat.isPrefixOf (a ++ b) = true := by
  rw [List.isPrefixOf_iff_prefix] at h ⊢
  exact h.trans (List.prefix_append a b)

theorem isPrefixOf_of_append_long {pat a b : Str} (h : pat.isPrefixOf (a ++ b) = true)
    (hlen : pat.length ≤ a.length) : pat.isPrefixOf a = true := by
  rw [List.isPrefixOf_iff_prefix, List.prefix_iff_eq_take] at h ⊢
  rw [List.take_append_of_le_length hlen] at h
  exact h

theorem eq_take_of_append_short {pat a b : Str} (h : pat.isPrefixOf (a ++ b) = true)
    (hlen : a.length ≤ pat.length) : a = pat.take a.length := by
  rw [List.isPrefixOf_iff_prefix, List.prefix_iff_eq_take] at h
  have h2 : pat.take a.length = ((a ++ b).take pat.length).take a.length := by rw [← h]
  rw [List.take_take, Nat.min_eq_left hlen, List.take_left] at h2
  exact h2.symm

theorem mem_of_straddle {pat a : Str} {c : Char} {b' : Str}
    (h : pat.isPrefixOf (a ++ c :: b') = true) (hlen : a.length < pat.length) :
    c ∈ pat := by
  rw [List.isPrefixOf_iff_prefix, List.prefix_iff_eq_take] at h
  have hk : a.length + (pat.length - a.length) = pat.length := by omega
  rw [← hk, List.take_append] at h
  have htake : (c :: b').take (pat.length - a.length) =
      c :: b'.take (pat.length - a.length - 1) := by
    cases hp : pat.length - a.length with
    | zero => omega
    | succ n => simp [List.take_succ_cons]
  rw [htake] at h
  rw [h]
  simp

theorem countPos_append_of_head_notMem (pat u : Str) (c : Char) (v : Str)
    (hc : c ∉ pat) :
    countPos pat (u ++ c :: v) = countPos pat u + countPos pat (c :: v) := by
  rw [countPos_append]
  congr 1
  unfold countPos
  apply List.countP_congr
  intro i hi
  rw [List.mem_range] at hi
  simp only [occB]
  rw [List.drop_append_of_le_length (le_of_lt hi)]
  constructor
  · intro h
    by_cases hfit : pat.length ≤ (u.drop i).length
    · exact isPrefixOf_of_append_long h hfit
    · exact absurd (mem_of_straddle h (by omega)) hc
  · intro h
    exact isPrefixOf_append_of_isPrefixOf _ h

theorem entryMarker_length : entryMarker.length = 9 := rfl

theorem newline_notMem_entryMarker : '\n' ∉ entryMarker := by decide

theorem entryMarker_no_border :
    ∀ i, i < 9 → 0 < i → entryMarker.drop i ≠ entryMarker.take (9 - i) := by decide

theorem occB_marker_mid (t : Str) (i : Nat) (h1 : 0 < i) (h2 : i < 9) :
    occB entryMarker (entryMarker ++ t) i = false := by
  simp only [occB]
  rw [List.drop_append_of_le_length (by rw [entryMarker_length]; omega)]
  by_contra hne
  rw [Bool.not_eq_false] at hne
  have hlen : (entryMarker.drop i).length ≤ entryMarker.length := by
    rw [List.length_drop]; omega
  have h3 := eq_take_of_append_short hne hlen
  rw [List.length_drop, entryMarker_length] at h3
  exact entryMarker_no_border i h2 h1 h3

theorem countPos_marker_self (t : Str) :
    countPos entryMarker (entryMarker ++ t) = 1 + countPos entryMarker t := by
  rw [countPos_append]
  congr 1
  have hpt : ∀ i ∈ List.range entryMarker.length,
      occB entryMarker (entryMarker ++ t) i = true ↔ (i == 0) = true := by
    intro i hi
    rw [List.mem_range, entryMarker_length] at hi
    rcases Nat.eq_zero_or_pos i with h0 | hpos
    · subst h0
      simp only [occB, List.drop_zero, beq_self_eq_true, iff_true]
      exact isPrefixOf_append_of_isPrefixOf t
        (by rw [List.isPrefixOf_iff_prefix])
    · rw [occB_marker_mid t i hpos hi]
      simp only [Bool.false_eq_true, false_iff, beq_iff_eq]
      omega
  rw [List.countP_congr hpt]
  decide

theorem entrySection_shape (f : JFile) :
    entrySection f =
      '\n' :: '\n' :: (entryMarker ++ ' ' ::
        (f.basename ++ '\n' :: '\n' :: (f.body ++ ['\n']))) := by
  simp [entrySection, entryMarker]

theorem entryMarker_isPrefixOf_newline (s : Str) :
    entryMarker.isPrefixOf ('\n' :: s) = false := rfl

theorem entryMarker_isPrefixOf_space (s : Str) :
    entryMarker.isPrefixOf (' ' :: s) = false := rfl

theorem countPos_entrySection (f : JFile) :
    countPos entryMarker (entrySection f) =
      1 + countPos entryMarker f.basename + countPos entryMarker f.body := by
  rw [entrySection_shape, countPos_cons, countPos_cons, countPos_marker_self,
    countPos_cons,
    countPos_append_of_head_notMem entryMarker f.basename '\n' _
      newline_notMem_entryMarker,
    countPos_cons, countPos_cons,
    countPos_append_of_head_notMem entryMarker f.body '\n' []
      newline_notMem_entryMarker,
    entryMarker_isPrefixOf_newline, entryMarker_isPrefixOf_newline,
    entryMarker_isPrefixOf_newline, entryMarker_isPrefixOf_newline,
    entryMarker_isPrefixOf_space]
  have hone : countPos entryMarker ['\n'] = 0 := rfl
  rw [hone]
  simp
  omega

theorem entryCount_nil : entryCount [] = 0 := by
  rw [entryCount]

theorem entryCount_eq_countPos (s : Str) : entryCount s = countPos entryMarker s := by
  have main : ∀ n (s : Str), s.length ≤ n → entryCount s = countPos entryMarker s := by
    intro n
    induction n with
    | zero =>
      intro s hs
      have hnil : s = [] := List.eq_nil_of_length_eq_zero (Nat.le_zero.mp hs)
      subst hnil
      rw [entryCount_nil]
      rfl
    | succ n ih =>
      intro s hs
      cases s with
      | nil =>
        rw [entryCount_nil]
        rfl
      | cons c rest =>
        by_cases hpre : entryMarker.isPrefixOf (c :: rest) = true
        · have hdecomp : c :: rest = entryMarker ++ rest.drop 8 := by
            have h := List.prefix_iff_eq_take.mp (List.isPrefixOf_iff_prefix.mp hpre)
            conv_lhs => rw [← List.take_append_drop entryMarker.length (c :: rest)]
            rw [← h, entryMarker_length]
            rfl
          have hlen8 : (rest.drop 8).length ≤ n := by
            rw [List.length_drop]
            rw [List.length_cons] at hs
            omega
          rw [entryCount, if_pos hpre, ih _ hlen8]
          conv_rhs => rw [hdecomp]
          rw [countPos_marker_self]
        · have hlen : rest.length ≤ n := by
            rw [List.length_cons] at hs; omega
          rw [entryCount, if_neg hpre, ih _ hlen, countPos_cons,
            Bool.eq_false_iff.mpr hpre]
          simp
  exact main s.length s le_rfl

theorem readJournalFiles_cons (f : JFile) (fs : List JFile) :
    readJournalFiles (f :: fs) = entrySection f ++ readJournalFiles fs := by
  simp [readJournalFiles]

theorem readJournalFiles_cons_exists (g : JFile) (gs : List JFile) :
    ∃ t, readJournalFiles (g :: gs) = '\n' :: t := by
  rw [readJournalFiles_cons, entrySection_shape]
  exact ⟨_, rfl⟩

theorem countPos_readJournalFiles (files : List JFile) :
    countPos entryMarker (readJournalFiles files) =
      files.length +
        (files.map (fun f => countPos entryMarker f.basename +
          countPos entryMarker f.body)).sum := by
  induction files with
  | nil => rfl
  | cons f fs ih =>
    rw [readJournalFiles_cons]
    cases fs with
    | nil =>
      have hnil : readJournalFiles ([] : List JFile) = [] := rfl
      rw [hnil, List.append_nil, countPos_entrySection]
      simp
      omega
    | cons g gs =>
      obtain ⟨t, ht⟩ := readJournalFiles_cons_exists g gs
      rw [ht,
        countPos_append_of_head_notMem entryMarker (entrySection f) '\n' t
          newline_notMem_entryMarker,
        ← ht, countPos_entrySection, ih]
      simp only [List.map_cons, List.sum_cons, List.length_cons]
      omega

theorem hasSubstr_eq_false_iff (pat s : Str) :
    hasSubstr pat s = false ↔ countPos pat s = 0 := by
  unfold hasSubstr countPos
  rw [List.countP_eq_zero]
  constructor
  · intro h i hi
    have := List.any_eq_false.mp h i hi
    simpa using this
  · intro h
    rw [List.any_eq_false]
    intro i hi
    simpa using h i hi

/-- C9: aggregation is one header-delimited section per file in input
order (the flattening of per-file sections), it distributes over
concatenation of input sequences, and when no basename or body contains
the header literal the aggregate contains exactly N marker occurrences,
one per file. -/
theorem readJournalFiles_aggregate_spec (xs ys files : List JFile)
    (hclean : ∀ f ∈ files, hasSubstr entryMarker f.basename = false ∧
      hasSubstr entryMarker f.body = false) :
    readJournalFiles (xs ++ ys) = readJournalFiles xs ++ readJournalFiles ys ∧
    readJournalFiles files = (files.map entrySection).flatten ∧
    countPos entryMarker (readJournalFiles files) = files.length := by
  refine ⟨?_, rfl, ?_⟩
  · simp [readJournalFiles, List.map_append]
  · rw [countPos_readJournalFiles]
    have hz : (files.map (fun f => countPos entryMarker f.basename +
        countPos entryMarker f.body)).sum = 0 := by
      apply List.sum_eq_zero
      intro x hx
      rw [List.mem_map] at hx
      obtain ⟨f, hf, hfx⟩ := hx
      obtain ⟨hb1, hb2⟩ := hclean f hf
      rw [hasSubstr_eq_false_iff] at hb1 hb2
      omega
    omega

/-- Witness for the aggregation theorem at two concrete clean files. -/
theorem readJournalFiles_aggregate_witness :
    readJournalFiles
        ([⟨"journal/2025-10-01.md".data, "2025-10-01".data, "Did things.".data⟩] ++
         [⟨"journal/2025-10-02.md".data, "2025-10-02".data, "More things.".data⟩]) =
      readJournalFiles [⟨"journal/2025-10-01.md".data, "2025-10-01".data,
          "Did things.".data⟩] ++
        readJournalFiles [⟨"journal/2025-10-02.md".data, "2025-10-02".data,
          "More things.".data⟩] ∧
    countPos entryMarker (readJournalFiles
        [⟨"journal/2025-10-01.md".data, "2025-10-01".data, "Did things.".data⟩,
         ⟨"journal/2025-10-02.md".data, "2025-10-02".data, "More things.".data⟩]) = 2 := by
  refine ⟨?_, ?_⟩
  · exact (readJournalFiles_aggregate_spec _ _
      [⟨"journal/2025-10-01.md".data, "2025-10-01".data, "Did things.".data⟩,
       ⟨"journal/2025-10-02.md".data, "2025-10-02".data, "More things.".data⟩]
      (by decide)).1
  · exact (readJournalFiles_aggregate_spec
      [⟨"journal/2025-10-01.md".data, "2025-10-01".data, "Did things.".data⟩]
      [⟨"journal/2025-10-02.md".data, "2025-10-02".data, "More things.".data⟩]
      [⟨"journal/2025-10-01.md".data, "2025-10-01".data, "Did things.".data⟩,
       ⟨"journal/2025-10-02.md".data, "2025-10-02".data, "More things.".data⟩]
      (by decide)).2.2

/-- C10: the Entries-analyzed footer number is the greedy split count on
the header literal, so whenever some file body itself contains the
literal, the reported count strictly exceeds the number of files
analyzed. -/
theorem entriesAnalyzedCount_exceeds (files : List JFile) (f : JFile) (hf : f ∈ files)
    (hbody : hasSubstr entryMarker f.body = true) :
    files.length < entriesAnalyzedCount (readJournalFiles files) := by
  rw [entriesAnalyzedCount, entryCount_eq_countPos, countPos_readJournalFiles]
  have h1 : 0 < countPos entryMarker f.body := by
    rcases Nat.eq_zero_or_pos (countPos entryMarker f.body) with h | h
    · rw [← hasSubstr_eq_false_iff] at h
      rw [hbody] at h
      exact absurd h (by simp)
    · exact h
  have h2 : countPos entryMarker f.basename + countPos entryMarker f.body ∈
      files.map (fun g => countPos entryMarker g.basename + countPos entryMarker g.body) :=
    List.mem_map_of_mem _ hf
  have h3 := List.single_le_sum (l := files.map (fun g =>
      countPos entryMarker g.basename + countPos entryMarker g.body))
    (fun x _ => Nat.zero_le x) _ h2
  omega

/-- Witness: a single file whose body embeds the header literal makes the
footer report more entries than were analyzed. -/
theorem entriesAnalyzedCount_exceeds_witness :
    [(⟨"journal/2025-10-01.md".data, "2025-10-01".data,
        "quoting ## Entry: here".data⟩ : JFile)].length <
      entriesAnalyzedCount (readJournalFiles
        [⟨"journal/2025-10-01.md".data, "2025-10-01".data,
          "quoting ## Entry: here".data⟩]) :=
  entriesAnalyzedCount_exceeds
    [⟨"journal/2025-10-01.md".data, "2025-10-01".data, "quoting ## Entry: here".data⟩]
    ⟨"journal/2025-10-01.md".data, "2025-10-01".data, "quoting ## Entry: here".data⟩
    (by decide) (by decide)

/-- Counterexample to C3 as stated: at a concrete invocation where the
external process fails to start, the temporary prompt artifact is not
removed. -/
theorem analyzeWithClaudeCode_leak_counterexample :
    (analyzeWithClaudeCode "journal text".data "2025-10-01".data "2025-10-02".data
      "now".data (.fail "spawn ENOENT".data)).tempRemoved = false := rfl

/-- C3 (amended): the temporary prompt artifact is removed whenever the
external process invocation resolves (including when stdout is empty or
whitespace), but when the invocation itself rejects - process failed to
start or exited abnormally - the artifact is not removed. -/
theorem analyzeWithClaudeCode_cleanup (content startDate endDate now out err msg : Str) :
    (analyzeWithClaudeCode content startDate endDate now (.ok out err)).tempRemoved =
      true ∧
    (analyzeWithClaudeCode content startDate endDate now (.fail msg)).tempRemoved =
      false := by
  constructor
  · by_cases h : trimStr out = [] <;> simp [analyzeWithClaudeCode, h]
  · rfl

theorem createMetaNote_files_eq (metaFolder today analysis startDate endDate : Str)
    (v : Vault) :
    (createMetaNote metaFolder today analysis startDate endDate v).files =
      if v.files.any (fun f => f.path == notePath metaFolder startDate endDate) then
        v.files.map (fun f =>
          if f.path == notePath metaFolder startDate endDate then
            { f with body := noteContentFor today startDate endDate analysis }
          else f)
      else v.files ++ [⟨notePath metaFolder startDate endDate,
        basenameOf (notePath metaFolder startDate endDate),
        noteContentFor today startDate endDate analysis⟩] := by
  unfold createMetaNote
  rw [apply_ite Vault.files]

theorem countP_path_replace (fn : Str) (c : Str) (l : List JFile) :
    (l.map (fun f => if f.path == fn then { f with body := c } else f)).countP
      (fun f => f.path == fn) = l.countP (fun f => f.path == fn) := by
  rw [List.countP_map]
  apply List.countP_congr
  intro f _
  by_cases h : f.path == fn <;> simp [Function.comp, h]

theorem countP_path_le_one (fn : Str) (l : List JFile)
    (hnodup : (l.map (fun f => f.path)).Nodup) :
    l.countP (fun f => f.path == fn) ≤ 1 := by
  induction l with
  | nil => simp
  | cons f fs ih =>
    rw [List.map_cons, List.nodup_cons] at hnodup
    obtain ⟨hnot, hfs⟩ := hnodup
    rw [List.countP_cons]
    by_cases hp : (f.path == fn) = true
    · rw [beq_iff_eq] at hp
      have hzero : fs.countP (fun g => g.path == fn) = 0 := by
        rw [List.countP_eq_zero]
        intro g hg
        simp only [beq_iff_eq]
        intro hgp
        exact hnot (hp ▸ hgp ▸ List.mem_map_of_mem _ hg)
      simp [hzero, hp]
    · have hrec := ih hfs
      simp only [hp, Bool.false_eq_true, if_false]
      omega

theorem countP_path_eq_one (fn : Str) (l : List JFile)
    (hnodup : (l.map (fun f => f.path)).Nodup)
    (hany : l.any (fun f => f.path == fn) = true) :
    l.countP (fun f => f.path == fn) = 1 := by
  have hle := countP_path_le_one fn l hnodup
  have hpos : 0 < l.countP (fun f => f.path == fn) := by
    rw [List.countP_pos_iff]
    exact List.any_eq_true.mp hany
  omega

theorem createMetaNote_count_one (metaFolder today analysis startDate endDate : Str)
    (v : Vault) (hnodup : (v.files.map (fun f => f.path)).Nodup) :
    (createMetaNote metaFolder today analysis startDate endDate v).files.countP
      (fun f => f.path == notePath metaFolder startDate endDate) = 1 := by
  rw [createMetaNote_files_eq]
  by_cases hany : v.files.any
      (fun f => f.path == notePath metaFolder startDate endDate) = true
  · rw [if_pos hany, countP_path_replace]
    exact countP_path_eq_one _ _ hnodup hany
  · rw [if_neg hany, List.countP_append]
    have hzero : v.files.countP
        (fun f => f.path == notePath metaFolder startDate endDate) = 0 := by
      rw [List.countP_eq_zero]
      intro f hf
      exact List.any_eq_false.mp (Bool.eq_false_iff.mpr hany) f hf
    rw [hzero]
    simp [List.countP_cons]

theorem createMetaNote_any_true (metaFolder today analysis startDate endDate : Str)
    (v : Vault) (hnodup : (v.files.map (fun f => f.path)).Nodup) :
    (createMetaNote metaFolder today analysis startDate endDate v).files.any
      (fun f => f.path == notePath metaFolder startDate endDate) = true := by
  have h1 := createMetaNote_count_one metaFolder today analysis startDate endDate v hnodup
  rw [List.any_eq_true]
  have : 0 < (createMetaNote metaFolder today analysis startDate endDate v).files.countP
      (fun f => f.path == notePath metaFolder startDate endDate) := by omega
  exact List.countP_pos_iff.mp this

/-- C6: the theme-analysis note path is exactly
metaFolder/analysis-start-to-end.md, and a second run over the same
range replaces the note at that path (same file count, still exactly one
note at the path, and its body is the second run's content). -/
theorem createMetaNote_idempotent (metaFolder today1 today2 a1 a2 startDate endDate : Str)
    (v : Vault) (hnodup : (v.files.map (fun f => f.path)).Nodup) :
    notePath metaFolder startDate endDate =
      metaFolder ++ "/analysis-".data ++ startDate ++ "-to-".data ++ endDate ++
        ".md".data ∧
    (createMetaNote metaFolder today2 a2 startDate endDate
        (createMetaNote metaFolder today1 a1 startDate endDate v)).files.length =
      (createMetaNote metaFolder today1 a1 startDate endDate v).files.length ∧
    (createMetaNote metaFolder today2 a2 startDate endDate
        (createMetaNote metaFolder today1 a1 startDate endDate v)).files.countP
      (fun f => f.path == notePath metaFolder startDate endDate) = 1 ∧
    ∀ f ∈ (createMetaNote metaFolder today2 a2 startDate endDate
        (createMetaNote metaFolder today1 a1 startDate endDate v)).files,
      f.path = notePath metaFolder startDate endDate →
        f.body = noteContentFor today2 startDate endDate a2 := by
  have hany1 := createMetaNote_any_true metaFolder today1 a1 startDate endDate v hnodup
  have hfiles2 := createMetaNote_files_eq metaFolder today2 a2 startDate endDate
    (createMetaNote metaFolder today1 a1 startDate endDate v)
  rw [if_pos hany1] at hfiles2
  refine ⟨rfl, ?_, ?_, ?_⟩
  · rw [hfiles2, List.length_map]
  · rw [hfiles2, countP_path_replace]
    exact createMetaNote_count_one metaFolder today1 a1 startDate endDate v hnodup
  · intro f hf hfp
    rw [hfiles2] at hf
    rw [List.mem_map] at hf
    obtain ⟨g, _, hgf⟩ := hf
    by_cases hg : (g.path == notePath metaFolder startDate endDate) = true
    · rw [if_pos hg] at hgf
      rw [← hgf]
    · rw [if_neg hg] at hgf
      rw [← hgf] at hfp
      rw [hfp] at hg
      simp at hg

/-- Witness for note-path idempotence at a concrete store that already
holds an older analysis note at the derived path. -/
theorem createMetaNote_idempotent_witness :
    (createMetaNote "journal/meta".data "2025-10-20".data "second run".data
        "2025-10-01".data "2025-10-02".data
        (createMetaNote "journal/meta".data "2025-10-19".data "first run".data
          "2025-10-01".data "2025-10-02".data
          { files := [⟨"journal/2025-10-01.md".data, "2025-10-01".data, "x".data⟩],
            folders := ["journal".data, "journal/meta".data] })).files.length =
      (createMetaNote "journal/meta".data "2025-10-19".data "first run".data
        "2025-10-01".data "2025-10-02".data
        { files := [⟨"journal/2025-10-01.md".data, "2025-10-01".data, "x".data⟩],
          folders := ["journal".data, "journal/meta".data] }).files.length ∧
    (createMetaNote "journal/meta".data "2025-10-20".data "second run".data
        "2025-10-01".data "2025-10-02".data
        (createMetaNote "journal/meta".data "2025-10-19".data "first run".data
          "2025-10-01".data "2025-10-02".data
          { files := [⟨"journal/2025-10-01.md".data, "2025-10-01".data, "x".data⟩],
            folders := ["journal".data, "journal/meta".data] })).files.countP
      (fun f => f.path == notePath "journal/meta".data "2025-10-01".data
        "2025-10-02".data) = 1 :=
  ⟨(createMetaNote_idempotent "journal/meta".data "2025-10-19".data "2025-10-20".data
      "first run".data "second run".data "2025-10-01".data "2025-10-02".data
      { files := [⟨"journal/2025-10-01.md".data, "2025-10-01".data, "x".data⟩],
        folders := ["journal".data, "journal/meta".data] } (by decide)).2.1,
   (createMetaNote_idempotent "journal/meta".data "2025-10-19".data "2025-10-20".data
      "first run".data "second run".data "2025-10-01".data "2025-10-02".data
      { files := [⟨"journal/2025-10-01.md".data, "2025-10-01".data, "x".data⟩],
        folders := ["journal".data, "journal/meta".data] } (by decide)).2.2.1⟩

theorem selectJournalFiles_eq_nil_iff (folder startDate endDate : Str)
    (files : List JFile) :
    selectJournalFiles folder startDate endDate files = [] ↔
      files.filter (keepFile folder startDate endDate) = [] := by
  have hlen := (List.mergeSort_perm
    (files.filter (keepFile folder startDate endDate)) basenameLe).length_eq
  rw [selectJournalFiles]
  constructor
  · intro h
    rw [h] at hlen
    exact List.eq_nil_of_length_eq_zero hlen.symm
  · intro h
    rw [h] at hlen ⊢
    exact List.eq_nil_of_length_eq_zero hlen

/-- C4: when the external process resolves but writes nothing or only
whitespace to stdout, the run surfaces the external-tool error and the
store is left exactly as it was - in particular no analysis note is
created at the target path. -/
theorem analyzeJournalRange_empty_stdout (cfg : Settings)
    (today now startDate endDate : Str) (v : Vault) (out err : Str)
    (hws : trimStr out = [])
    (hfolder : abstractExists v cfg.journalFolder = true)
    (hnonempty : selectJournalFiles cfg.journalFolder startDate endDate v.files ≠ []) :
    analyzeJournalRange cfg today now (.ok out err) startDate endDate v =
      (v, .errorNotice
        "Failed to analyze with Claude Code: Claude Code returned empty response".data) := by
  have hok : getJournalFilesInRange cfg.journalFolder startDate endDate v =
      .ok (selectJournalFiles cfg.journalFolder startDate endDate v.files) := by
    unfold getJournalFilesInRange
    rw [if_pos hfolder]
  have hinv : (analyzeWithClaudeCode
      (readJournalFiles (selectJournalFiles cfg.journalFolder startDate endDate v.files))
      startDate endDate now (.ok out err)).result =
      .error
        "Failed to analyze with Claude Code: Claude Code returned empty response".data := by
    simp only [analyzeWithClaudeCode]
    rw [if_pos hws]
  unfold analyzeJournalRange
  rw [hok]
  simp only [if_neg hnonempty, hinv]

/-- Witness: a concrete store with one matching journal entry and an
invocation returning whitespace-only stdout ends in the error notice
with the store unchanged. -/
theorem analyzeJournalRange_empty_stdout_witness :
    analyzeJournalRange
        ⟨"journal".data, "journal/meta".data, "claude".data, 30, 70, []⟩
        "2025-10-20".data "now".data (.ok "  \n".data "".data)
        "2025-01-01".data "2025-12-31".data
        { files := [⟨"journal/2025-10-01.md".data, "2025-10-01".data, "body".data⟩],
          folders := ["journal".data] } =
      ({ files := [⟨"journal/2025-10-01.md".data, "2025-10-01".data, "body".data⟩],
          folders := ["journal".data] },
       .errorNotice
        "Failed to analyze with Claude Code: Claude Code returned empty response".data) :=
  analyzeJournalRange_empty_stdout
    ⟨"journal".data, "journal/meta".data, "claude".data, 30, 70, []⟩
    "2025-10-20".data "now".data "2025-01-01".data "2025-12-31".data
    { files := [⟨"journal/2025-10-01.md".data, "2025-10-01".data, "body".data⟩],
      folders := ["journal".data] }
    "  \n".data "".data (by decide) (by decide)
    (by rw [Ne, selectJournalFiles_eq_nil_iff]; decide)

/-- C2: for every raw output, if no bracketed region exists the parse
returns the empty list without error; if the first-bracket-to-last-
bracket region decodes as a JSON array the parse returns exactly that
array's records filtered by the confidence threshold; and if a region
exists but fails to decode, an error is surfaced rather than a silent
empty result. -/
theorem parseConnections_spec (raw : Str) (minConfidence : Int) :
    (extractRegion raw = none → parseConnections raw minConfidence = .ok []) ∧
    (∀ region elems, extractRegion raw = some region →
      jsonDecode region = some (.arr elems) →
      parseConnections raw minConfidence =
        .ok (filterConnections elems minConfidence)) ∧
    (∀ region, extractRegion raw = some region → jsonDecode region = none →
      ∃ msg, parseConnections raw minConfidence = .error msg) := by
  refine ⟨?_, ?_, ?_⟩
  · intro h
    simp only [parseConnections, h]
  · intro region elems h1 h2
    simp only [parseConnections, h1, h2]
  · intro region h1 h2
    refine ⟨"Failed to analyze connections: Unexpected token in JSON".data, ?_⟩
    simp only [parseConnections, h1, h2]

set_option maxRecDepth 100000 in
/-- Witness: scenario C's prose-wrapped well-formed array yields exactly
its one record at threshold 70; bracket-free text yields the empty list;
a bracketed-but-malformed region surfaces an error. -/
theorem parseConnections_spec_witness :
    parseConnections
        "Some text [\x7b\"sourceFile\":\"a.md\",\"targetFile\":\"b.md\",\"sourceText\":\"x\",\"targetText\":\"y\",\"reason\":\"r\",\"confidence\":95,\"connectionType\":\"thematic\"\x7d] trailing".data
        70 =
      .ok [Json.obj
        [("sourceFile".data, Json.str "a.md".data),
         ("targetFile".data, Json.str "b.md".data),
         ("sourceText".data, Json.str "x".data),
         ("targetText".data, Json.str "y".data),
         ("reason".data, Json.str "r".data),
         ("confidence".data, Json.num 95),
         ("connectionType".data, Json.str "thematic".data)]] ∧
    parseConnections "no json in this response".data 70 = .ok [] ∧
    (∃ msg, parseConnections "bad [not json] output".data 70 = .error msg) := by
  refine ⟨?_, ?_, ?_⟩
  · exact (parseConnections_spec
      "Some text [\x7b\"sourceFile\":\"a.md\",\"targetFile\":\"b.md\",\"sourceText\":\"x\",\"targetText\":\"y\",\"reason\":\"r\",\"confidence\":95,\"connectionType\":\"thematic\"\x7d] trailing".data
      70).2.1 _ _ rfl rfl
  · exact (parseConnections_spec "no json in this response".data 70).1 rfl
  · exact (parseConnections_spec "bad [not json] output".data 70).2.2 _ rfl rfl

/-- C8: the confidence filter keeps a record whose confidence equals the
threshold (inclusive boundary) and drops one a point below it. -/
theorem filterConnections_boundary (conns : List Json) (minConfidence : Int) (c : Json) :
    (connectionConfidence c = some minConfidence →
      (c ∈ filterConnections conns minConfidence ↔ c ∈ conns)) ∧
    (connectionConfidence c = some (minConfidence - 1) →
      c ∉ filterConnections conns minConfidence) := by
  constructor
  · intro h
    unfold filterConnections
    rw [List.mem_filter]
    have hk : keepConnection minConfidence c = true := by
      unfold keepConnection
      rw [h]
      simp
    simp [hk]
  · intro h
    unfold filterConnections
    rw [List.mem_filter]
    have hk : keepConnection minConfidence c = false := by
      unfold keepConnection
      rw [h]
      simp
    simp [hk]

/-- Witness for the inclusive boundary at threshold 70: confidence 70 is
kept, confidence 69 is dropped. -/
theorem filterConnections_boundary_witness :
    Json.obj [("confidence".data, Json.num 70)] ∈
      filterConnections [Json.obj [("confidence".data, Json.num 70)]] 70 ∧
    Json.obj [("confidence".data, Json.num 69)] ∉
      filterConnections [Json.obj [("confidence".data, Json.num 69)]] 70 := by
  constructor
  · exact ((filterConnections_boundary
      [Json.obj [("confidence".data, Json.num 70)]] 70
      (Json.obj [("confidence".data, Json.num 70)])).1 rfl).mpr
      (List.mem_singleton.mpr rfl)
  · exact (filterConnections_boundary
      [Json.obj [("confidence".data, Json.num 69)]] 70
      (Json.obj [("confidence".data, Json.num 69)])).2 rfl

theorem indexOfAux_some (pat : Str) : ∀ (s : Str) (k r : Nat),
    indexOfAux pat s k = some r →
      k ≤ r ∧ pat.isPrefixOf (s.drop (r - k)) = true ∧
        ∀ j, j < r - k → pat.isPrefixOf (s.drop j) = false := by
  intro s
  induction s with
  | nil =>
    intro k r h
    unfold indexOfAux at h
    by_cases hp : pat.isPrefixOf [] = true
    · rw [if_pos hp] at h
      obtain rfl : k = r := Option.some.inj h
      refine ⟨le_rfl, ?_, ?_⟩
      · simpa using hp
      · intro j hj
        omega
    · rw [if_neg hp] at h
      exact absurd h (by simp)
  | cons c rest ih =>
    intro k r h
    unfold indexOfAux at h
    by_cases hp : pat.isPrefixOf (c :: rest) = true
    · rw [if_pos hp] at h
      obtain rfl : k = r := Option.some.inj h
      refine ⟨le_rfl, ?_, ?_⟩
      · simpa using hp
      · intro j hj
        omega
    · rw [if_neg hp] at h
      obtain ⟨hk, hpre, hmin⟩ := ih (k + 1) r h
      refine ⟨by omega, ?_, ?_⟩
      · have : r - k = (r - (k + 1)) + 1 := by omega
        rw [this, List.drop_succ_cons]
        exact hpre
      · intro j hj
        cases j with
        | zero =>
          rw [List.drop_zero]
          exact Bool.eq_false_iff.mpr hp
        | succ j' =>
          rw [List.drop_succ_cons]
          exact hmin j' (by omega)

theorem indexOfAux_none (pat : Str) : ∀ (s : Str) (k : Nat),
    indexOfAux pat s k = none →
      ∀ j, pat.isPrefixOf (s.drop j) = false := by
  intro s
  induction s with
  | nil =>
    intro k h j
    unfold indexOfAux at h
    by_cases hp : pat.isPrefixOf [] = true
    · rw [if_pos hp] at h
      exact absurd h (by simp)
    · rw [List.drop_nil]
      exact Bool.eq_false_iff.mpr hp
  | cons c rest ih =>
    intro k h j
    unfold indexOfAux at h
    by_cases hp : pat.isPrefixOf (c :: rest) = true
    · rw [if_pos hp] at h
      exact absurd h (by simp)
    · rw [if_neg hp] at h
      cases j with
      | zero =>
        rw [List.drop_zero]
        exact Bool.eq_false_iff.mpr hp
      | succ j' =>
        rw [List.drop_succ_cons]
        exact ih (k + 1) h j'

theorem strIndexOf_none_iff (pat s : Str) :
    strIndexOf pat s = none ↔ ∀ j, pat.isPrefixOf (s.drop j) = false := by
  constructor
  · intro h
    exact indexOfAux_none pat s 0 h
  · intro h
    cases hidx : strIndexOf pat s with
    | none => rfl
    | some i =>
      obtain ⟨_, hpre, _⟩ := indexOfAux_some pat s 0 i hidx
      rw [h (i - 0)] at hpre
      exact absurd hpre (by simp)

theorem foldl_addLinkStep (conns : List Connection) :
    ∀ (st : Str × Nat × Nat),
      (conns.foldl addLinkStep st).2.1 + (conns.foldl addLinkStep st).2.2 =
        st.2.1 + st.2.2 + conns.length := by
  induction conns with
  | nil =>
    intro st
    simp
  | cons c cs ih =>
    intro st
    rw [List.foldl_cons, ih (addLinkStep st c)]
    unfold addLinkStep
    by_cases hr : (insertWikiLink st.1 c.sourceText c.targetFile).2 = true
    · simp only [hr, if_true, List.length_cons]
      omega
    · simp only [Bool.eq_false_iff.mpr hr, Bool.false_eq_true, if_false, List.length_cons]
      omega

/-- C5: link insertion is absence-safe and first-occurrence-only, and
batch application never aborts early.  Absence of the source text (no
occurrence at any position, equivalently a none result of the index
search) returns false with the content unchanged; a successful insertion
splices the wiki link over exactly the first occurrence (no occurrence
lies strictly before the spliced index); and the Add-All loop accounts
every connection as either applied or failed. -/
theorem insertWikiLink_spec (content sourceText targetPath : Str)
    (conns : List Connection) :
    (strIndexOf sourceText content = none ↔
      ∀ j, sourceText.isPrefixOf (content.drop j) = false) ∧
    (strIndexOf sourceText content = none →
      insertWikiLink content sourceText targetPath = (content, false)) ∧
    (∀ i, strIndexOf sourceText content = some i →
      (insertWikiLink content sourceText targetPath).2 = true →
      (insertWikiLink content sourceText targetPath).1 =
        content.take i ++ ("[[".data ++ stripMdExt targetPath ++ "]]".data) ++
          content.drop (i + sourceText.length) ∧
      ∀ j, j < i → sourceText.isPrefixOf (content.drop j) = false) ∧
    (addAllLinks content conns).2.1 + (addAllLinks content conns).2.2 =
      conns.length := by
  refine ⟨strIndexOf_none_iff sourceText content, ?_, ?_, ?_⟩
  · intro h
    unfold insertWikiLink replaceFirst
    rw [h]
    simp
  · intro i hidx h2
    have hres : insertWikiLink content sourceText targetPath =
        (content.take i ++ ("[[".data ++ stripMdExt targetPath ++ "]]".data) ++
          content.drop (i + sourceText.length), true) := by
      unfold insertWikiLink replaceFirst at h2 ⊢
      rw [hidx] at h2 ⊢
      by_cases hupd : content.take i ++ ("[[".data ++ stripMdExt targetPath ++
          "]]".data) ++ content.drop (i + sourceText.length) = content
      · rw [if_pos hupd] at h2
        exact absurd h2 (by simp)
      · rw [if_neg hupd]
    refine ⟨by rw [hres], ?_⟩
    obtain ⟨_, _, hmin⟩ := indexOfAux_some sourceText content 0 i hidx
    intro j hj
    exact hmin j (by omega)
  · have h := foldl_addLinkStep conns (content, 0, 0)
    unfold addAllLinks
    simpa using h

/-- Witness for link insertion: an absent source text reports false and
leaves the content unchanged; a present one splices the link over its
first occurrence; a two-connection batch (one applying, one failing)
accounts both. -/
theorem insertWikiLink_spec_witness :
    insertWikiLink "hello world".data "absent".data "notes/b.md".data =
      ("hello world".data, false) ∧
    (insertWikiLink "link to alpha here".data "alpha".data "notes/b.md".data).1 =
      "link to ".data ++ ("[[".data ++ stripMdExt "notes/b.md".data ++ "]]".data) ++
        " here".data ∧
    (addAllLinks "link to alpha here".data
        [⟨"a.md".data, "notes/b.md".data, "alpha".data, "t".data, "r".data, 95,
          "thematic".data⟩,
         ⟨"a.md".data, "notes/c.md".data, "missing".data, "t".data, "r".data, 80,
          "entity".data⟩]).2.1 +
      (addAllLinks "link to alpha here".data
        [⟨"a.md".data, "notes/b.md".data, "alpha".data, "t".data, "r".data, 95,
          "thematic".data⟩,
         ⟨"a.md".data, "notes/c.md".data, "missing".data, "t".data, "r".data, 80,
          "entity".data⟩]).2.2 = 2 := by
  refine ⟨?_, ?_, ?_⟩
  · exact (insertWikiLink_spec "hello world".data "absent".data "notes/b.md".data
      []).2.1 (by decide)
  · exact ((insertWikiLink_spec "link to alpha here".data "alpha".data
      "notes/b.md".data []).2.2.1 8 (by decide) (by decide)).1
  · exact (insertWikiLink_spec "link to alpha here".data "x".data "y".data
      [⟨"a.md".data, "notes/b.md".data, "alpha".data, "t".data, "r".data, 95,
        "thematic".data⟩,
       ⟨"a.md".data, "notes/c.md".data, "missing".data, "t".data, "r".data, 80,
        "entity".data⟩]).2.2.2
